import Mathlib

/-!
Shallow embedding of the multi-store order aggregation pipeline:
the Ozon service layer (`src/services/ozonService.ts`) and the
dashboard analytics (`src/components/Dashboard.tsx`).

Modelling conventions:
* JavaScript numbers that carry money amounts are modelled as `Int`
  (the spec calls them decimals; no claim depends on fractional values).
  `unitPrice` is a decimal-as-string in the source and is modelled by its
  parsed numeric value, since every use either parses it (`parseFloat`)
  or prints it back.
* Timestamps (`in_process_at`, compared via `new Date(...).getTime()`)
  are modelled as `Int` milliseconds.
* The `fetch` transport is a parameter: for one store and window it maps
  a request offset to either an error message (any non-ok response or
  connection failure, with the extracted detail) or a page of postings.
* The `alert(...)` call in the per-store catch block is the only side
  effect besides the network; it is modelled as a `Warning` value
  (store id plus message) threaded out of the functions writer-style.
* JavaScript truthiness tests (`x || y`) are modelled field by field:
  `jsOrString` for strings (empty string is falsy), the explicit
  zero test in `orderTotal` for numeric sums, `jsQty` for the
  `quantity || 1` default.
* Record fields not read by any of the analysed code paths
  (tracking numbers, cancellation data, analytics, ...) are omitted.
-/

/-- Credentials of one store, from `types.ts` (`OzonCredentials`).
The spec calls this StoreCredential with `storeId`/`secret`. -/
structure OzonCredentials where
  clientId : String
  apiKey : String
  deriving DecidableEq

/-- One line item of an order, from `types.ts` (`OzonProduct`).
The spec calls this LineItem. `quantity` is optional here because the
export code defends against its absence with `|| 1`. -/
structure OzonProduct where
  name : String
  offer_id : String
  price : Int
  currency_code : String
  quantity : Option Nat
  sku : Nat
  deriving DecidableEq

/-- One entry of `financial_data.products`, from `types.ts`. The stats
code sums the `price` field of these entries; `payout` is carried along
to keep the distinction visible. -/
structure FinancialProduct where
  commission_amount : Int
  payout : Int
  old_price : Int
  price : Int
  deriving DecidableEq

/-- An order record, from `types.ts` (`OzonPosting`). The spec calls
this Order with `createdAt` for `in_process_at` and `sourceStoreId` for
`clientId`. -/
structure OzonPosting where
  posting_number : String
  status : String
  in_process_at : Int
  products : List OzonProduct
  financial_data : Option (List FinancialProduct)
  clientId : Option String
  deriving DecidableEq

/-- One page of the paginated transport response:
`data.result.postings` and `data.result.has_next`. -/
structure PageResult where
  postings : List OzonPosting
  has_next : Bool
  deriving DecidableEq

/-- The per-store failure event surfaced by the catch block of
`fetchOrdersForStore` (the `alert` names the store and the message). -/
structure Warning where
  storeId : String
  message : String
  deriving DecidableEq

/-- A per-store transport: given the credential and the window length in
days, maps a request offset to a page or a failure. -/
abbrev Transport := OzonCredentials → Nat → Nat → Except String PageResult

/-- The pagination loop of `fetchOrdersForStore`
(`src/services/ozonService.ts` lines 24-84): fetch a page at `offset`,
accumulate, advance `offset` by the page size 100, break as soon as
`offset > 10000` (safety limit), otherwise continue while `has_next`.
The second component counts transport requests made. -/
def fetchLoop (t : Nat → Except String PageResult) (offset : Nat) (acc : List OzonPosting)
    (calls : Nat) : Except String (List OzonPosting) × Nat :=
  match t offset with
  | .error e => (.error e, calls + 1)
  | .ok page =>
    if h : 10000 < offset + 100 then (.ok (acc ++ page.postings), calls + 1)
    else if page.has_next then fetchLoop t (offset + 100) (acc ++ page.postings) (calls + 1)
    else (.ok (acc ++ page.postings), calls + 1)
termination_by 10001 - offset
decreasing_by omega

/-- Tagging of `fetchOrdersForStore` line 87:
`allPostings.map(p => (... p, clientId: credentials.clientId))`. -/
def tagOrders (cid : String) (ps : List OzonPosting) : List OzonPosting :=
  ps.map (fun p => { p with clientId := some cid })

/-- The per-store fetch (`fetchOrdersForStore`): run the pagination loop
from offset 0 with an empty accumulator; on success tag every posting
with the store's client id; on any failure the catch block alerts
(modelled as the returned `Warning`) and returns the empty list. -/
def fetchOrdersForStore (env : Transport) (cred : OzonCredentials) (days : Nat) :
    List OzonPosting × List Warning :=
  match (fetchLoop (env cred days) 0 [] 0).1 with
  | .ok allPostings => (tagOrders cred.clientId allPostings, [])
  | .error e => ([], [{ storeId := cred.clientId, message := e }])

/-- The aggregated fetch (`fetchAggregatedOrders`): empty credential
list short-circuits; otherwise all per-store fetches run (Promise.all),
their order lists are flattened and sorted descending by
`in_process_at`, their warnings are collected. -/
def fetchAggregatedOrders (env : Transport) (credentialsList : List OzonCredentials)
    (days : Nat) : List OzonPosting × List Warning :=
  if credentialsList.isEmpty then ([], [])
  else
    let results := credentialsList.map (fun cred => fetchOrdersForStore env cred days)
    let aggregated := (results.map Prod.fst).flatten
    let warnings := (results.map Prod.snd).flatten
    (List.insertionSort (fun a b => b.in_process_at ≤ a.in_process_at) aggregated, warnings)

/-- The deprecated single-store entry point (`fetchOrders`,
`src/services/ozonService.ts` lines 118-120): delegates to
`fetchAggregatedOrders` with a singleton list. -/
def fetchOrders (env : Transport) (credentials : OzonCredentials) (days : Nat) :
    List OzonPosting × List Warning :=
  fetchAggregatedOrders env [credentials] days

/-- JavaScript `s || d` for strings: the empty string is falsy. -/
def jsOrString (s d : String) : String :=
  if s = "" then d else s

/-- Currency assignment of the stats loop (`Dashboard.tsx` line 73):
`order.products[0]?.currency_code || 'RUB'`. -/
def orderCurrency (o : OzonPosting) : String :=
  match o.products with
  | [] => "RUB"
  | p :: _ => jsOrString p.currency_code "RUB"

/-- Fallback revenue of an order (`Dashboard.tsx` line 75):
`order.products.reduce((sum, p) => sum + parseFloat(p.price), 0)` —
the sum of unit prices, quantity not multiplied in. -/
def fallbackSum (o : OzonPosting) : Int :=
  (o.products.map (fun p => p.price)).sum

/-- Per-order revenue of the stats loop (`Dashboard.tsx` lines 74-75):
`order.financial_data?.products.reduce((sum, p) => sum + p.price, 0) ||
 order.products.reduce((sum, p) => sum + parseFloat(p.price), 0)`.
The optional chain yields `undefined` (falsy) when `financial_data` is
absent, and `0` is also falsy, so the fallback is taken both when the
financial data is missing and when its sum is zero. -/
def orderTotal (o : OzonPosting) : Int :=
  match o.financial_data with
  | none => fallbackSum o
  | some fps =>
    let s := (fps.map (fun p => p.price)).sum
    if s = 0 then fallbackSum o else s

/-- One per-currency revenue bucket of `stats` (`revenueByCurrency`
values: running `amount` and order `count`). -/
structure RevenueBucket where
  amount : Int
  count : Nat
  deriving DecidableEq

/-- One step of the `revenueByCurrency` accumulation (`Dashboard.tsx`
lines 77-82): create the bucket on first sight of a currency, then add
the order total to `amount` and bump `count`. The record object is
modelled as an insertion-ordered association list. -/
def updateAssoc (buckets : List (String × RevenueBucket)) (k : String) (t : Int) :
    List (String × RevenueBucket) :=
  match buckets with
  | [] => [(k, { amount := t, count := 1 })]
  | (k', b) :: rest =>
    if k' = k then (k', { amount := b.amount + t, count := b.count + 1 }) :: rest
    else (k', b) :: updateAssoc rest k t

/-- The `revenueByCurrency` record after the stats loop has visited
every order. -/
def computeBuckets (orders : List OzonPosting) : List (String × RevenueBucket) :=
  orders.foldl (fun acc o => updateAssoc acc (orderCurrency o) (orderTotal o)) []

/-- Dominant-currency selection of `stats` (`Dashboard.tsx` lines
95-102): scan the buckets keeping the currency with strictly highest
amount, starting from `('RUB', -1)`. -/
def pickDominant (buckets : List (String × RevenueBucket)) : String :=
  (buckets.foldl (fun acc kb => if kb.2.amount > acc.2 then (kb.1, kb.2.amount) else acc)
    ("RUB", -1)).1

/-- The claim-relevant part of the `stats` memo result (the 15-day chart
series additionally depends on the wall clock and is outside the
claims). -/
structure StatsResult where
  totalOrders : Nat
  revenueByCurrency : List (String × RevenueBucket)
  dominantCurrency : String
  deriving DecidableEq

/-- The `stats` computation of `Dashboard.tsx` (the spec's
`computeStats`), restricted to its claim-relevant fields. -/
def computeStats (orders : List OzonPosting) : StatsResult :=
  { totalOrders := orders.length
    revenueByCurrency := computeBuckets orders
    dominantCurrency := pickDominant (computeBuckets orders) }

/-- One smart group (`Dashboard.tsx` `smartGroups` values): the
representative product, the member orders and the group currency. -/
structure SmartGroup where
  product : OzonProduct
  orders : List OzonPosting
  currency : String
  deriving DecidableEq

/-- Grouping key of an order: defined exactly when the order has a
single line item, in which case it is that item's `offer_id`. -/
def keyOf (o : OzonPosting) : Option String :=
  match o.products with
  | [p] => some p.offer_id
  | _ => none

/-- Insertion of one single-item order into the groups record
(`Dashboard.tsx` lines 131-139): find the entry with the order's key
and push the order onto its member list, or append a fresh group
(representative product, empty-then-pushed member list, currency
`product.currency_code || 'RUB'`) when the key is new. -/
def pushToGroup (k : String) (o : OzonPosting) (p : OzonProduct) :
    List (String × SmartGroup) → List (String × SmartGroup)
  | [] => [(k, { product := p, orders := [o], currency := jsOrString p.currency_code "RUB" })]
  | (k', g) :: rest =>
    if k' = k then (k', { g with orders := g.orders ++ [o] }) :: rest
    else (k', g) :: pushToGroup k o p rest

/-- One iteration of the `smartGroups` forEach: orders with other than
exactly one line item are skipped. -/
def addToGroups (gs : List (String × SmartGroup)) (o : OzonPosting) :
    List (String × SmartGroup) :=
  match o.products with
  | [p] => pushToGroup p.offer_id o p gs
  | _ => gs

/-- The groups record after the forEach, as an insertion-ordered
association list (JavaScript object keyed by `offer_id`). -/
def groupAssoc (orders : List OzonPosting) : List (String × SmartGroup) :=
  orders.foldl addToGroups []

/-- The `smartGroups` memo (the spec's `buildGroups`):
`Object.values(groups).sort((a, b) => b.orders.length - a.orders.length)`
— the group values in insertion order, stably sorted descending by
member count (modern JavaScript `sort` is stable). -/
def buildGroups (orders : List OzonPosting) : List SmartGroup :=
  List.insertionSort (fun a b => b.orders.length ≤ a.orders.length)
    ((groupAssoc orders).map Prod.snd)

/-- JavaScript `q || 1` for the optional quantity: both an absent value
and 0 are falsy and default to 1. -/
def jsQty (q : Option Nat) : Nat :=
  match q with
  | some (n + 1) => n + 1
  | _ => 1

/-- Quantity contributed by one member order in the export
(`o.products[0].quantity || 1`); group members always have exactly one
line item. -/
def firstQty (o : OzonPosting) : Nat :=
  jsQty (o.products.head?.bind (fun p => p.quantity))

/-- Total quantity of a group row (`Dashboard.tsx` line 236):
`group.orders.reduce((sum, o) => sum + (o.products[0].quantity || 1), 0)`. -/
def totalQty (g : SmartGroup) : Nat :=
  g.orders.foldl (fun sum o => sum + firstQty o) 0

/-- The quote escaping of the export (`Dashboard.tsx` line 242):
`group.product.name.replace(/"/g, '""')` — every quote character is
doubled, all other characters are kept. -/
def escQuotes (s : String) : String :=
  String.mk (s.data.flatMap (fun c => if c = '\"' then ['\"', '\"'] else [c]))

/-- Count of packed member orders of a group (`Dashboard.tsx` line 238):
members whose posting number is in the packed set. -/
def packedCount (packed : List String) (g : SmartGroup) : Nat :=
  (g.orders.filter (fun o => packed.contains o.posting_number)).length

/-- One data row of the export (`Dashboard.tsx` line 245): offer id,
sku, quoted name, unit price, currency, total quantity, unpacked count,
packed count, newline-terminated. -/
def groupRow (packed : List String) (g : SmartGroup) : String :=
  g.product.offer_id ++ "," ++ toString g.product.sku ++ ",\"" ++ escQuotes g.product.name
    ++ "\"," ++ toString g.product.price ++ "," ++ g.currency ++ ","
    ++ toString (totalQty g) ++ "," ++ toString (g.orders.length - packedCount packed g)
    ++ "," ++ toString (packedCount packed g) ++ "\n"

/-- The header row of the export (`Dashboard.tsx` line 231). -/
def csvHeader : String :=
  "货号 (Offer ID),SKU,商品名称,单价,币种,总数量 (件),待打包订单,已打包订单\n"

/-- The byte-order marker prefix of the export (`Dashboard.tsx` line
229 initialises the content with the U+FEFF character). -/
def bomStr : String := "\uFEFF"

/-- The exported delimited text of `handleExportSmartGroups`: `none`
when the group list is empty (the handler returns without exporting),
otherwise the byte-order marker, the header and one row per group. -/
def toDelimitedText (gs : List SmartGroup) (packed : List String) : Option String :=
  if gs.isEmpty then none
  else some (gs.foldl (fun acc g => acc ++ groupRow packed g) (bomStr ++ csvHeader))

/-- Per-order revenue as claim C1 words it: the sum of the financial
payout entries whenever financial data is present, else the sum of the
line items' unit prices. (The spec's `financials.lineItemPayouts` list
corresponds to the `price` fields of `financial_data.products`, the
values the source sums.) -/
def claimedRevenueC1 (o : OzonPosting) : Int :=
  match o.financial_data with
  | some fps => (fps.map (fun p => p.price)).sum
  | none => fallbackSum o

/-- Per-order revenue as amended for claim C1: the financial sum is
used only when financial data is present with a nonzero sum; when it is
absent or sums to zero the fallback sum of unit prices is used. -/
def amendedRevenueC1 (o : OzonPosting) : Int :=
  match o.financial_data with
  | some fps =>
    if (fps.map (fun p => p.price)).sum ≠ 0 then (fps.map (fun p => p.price)).sum
    else fallbackSum o
  | none => fallbackSum o

/-- Total quantity of a group as claim C8 words it: the sum over member
orders of the line item's quantity, defaulting to 1 only when the
quantity is absent. -/
def claimedQtyC8 (g : SmartGroup) : Nat :=
  (g.orders.map (fun o => ((o.products.head?.bind (fun p => p.quantity)).getD 1))).sum

/-- Total quantity of a group as amended for claim C8: the quantity
defaults to 1 when it is absent or zero. -/
def amendedQtyC8 (g : SmartGroup) : Nat :=
  (g.orders.map (fun o =>
    match o.products.head?.bind (fun p => p.quantity) with
    | some (n + 1) => n + 1
    | _ => 1)).sum

/-- Helper for the first-encounter key order: keep the first occurrence
of every key, walking left to right with the already-seen keys. -/
def dedupFirstAux : List String → List String → List String
  | [], _ => []
  | k :: ks, seen =>
    if k ∈ seen then dedupFirstAux ks seen else k :: dedupFirstAux ks (k :: seen)

/-- Keys in order of first encounter, duplicates dropped — the key
sequence of a JavaScript object populated left to right. -/
def dedupFirst (l : List String) : List String :=
  dedupFirstAux l []

/-! Concrete sample data used by witnesses and counterexamples. -/

/-- Sample line item with unit price 7. -/
def prodA : OzonProduct :=
  { name := "Alpha", offer_id := "OF1", price := 7, currency_code := "CNY",
    quantity := some 1, sku := 1 }

/-- Sample line item with unit price 10. -/
def prodB : OzonProduct :=
  { name := "Beta", offer_id := "OF2", price := 10, currency_code := "RUB",
    quantity := some 2, sku := 2 }

/-- Sample line item whose quantity is present but zero. -/
def prodQ0 : OzonProduct :=
  { name := "Gamma", offer_id := "OF3", price := 4, currency_code := "USD",
    quantity := some 0, sku := 3 }

/-- Sample order whose financial data is present but sums to zero. -/
def exFinZero : OzonPosting :=
  { posting_number := "P1", status := "delivering", in_process_at := 3,
    products := [prodA], financial_data := some [], clientId := none }

/-- Sample order with an empty line-item list. -/
def exNoItems : OzonPosting :=
  { posting_number := "P2", status := "delivering", in_process_at := 4,
    products := [], financial_data := none, clientId := none }

/-- Sample order of store A. -/
def oA1 : OzonPosting :=
  { posting_number := "A1", status := "s", in_process_at := 5,
    products := [prodA], financial_data := none, clientId := none }

/-- Second sample order with the same offer id as `oA1`. -/
def oA2 : OzonPosting :=
  { posting_number := "A2", status := "s", in_process_at := 6,
    products := [prodA], financial_data := none, clientId := none }

/-- Sample order of store B. -/
def oB1 : OzonPosting :=
  { posting_number := "B1", status := "s", in_process_at := 9,
    products := [prodB], financial_data := none, clientId := none }

/-- Sample order whose single line item has quantity zero. -/
def oQ0 : OzonPosting :=
  { posting_number := "Q0", status := "s", in_process_at := 1,
    products := [prodQ0], financial_data := none, clientId := none }

/-- Sample credential for store A. -/
def credA : OzonCredentials := { clientId := "A", apiKey := "ka" }

/-- Sample credential for store B. -/
def credB : OzonCredentials := { clientId := "B", apiKey := "kb" }

/-- Transport where store A fails immediately and store B returns one
final page. -/
def envAB : Transport := fun c _ _ =>
  if c.clientId = "A" then .error "boom"
  else .ok { postings := [oB1], has_next := false }

/-- Transport where store A returns a first page with more to come and
then fails on the second page, while store B succeeds. -/
def envMid : Transport := fun c _ off =>
  if c.clientId = "A" then
    if off = 0 then .ok { postings := [oA1], has_next := true }
    else .error "page failure"
  else .ok { postings := [oB1], has_next := false }

/-- Transport where both stores return one final page each. -/
def envOk : Transport := fun c _ _ =>
  .ok { postings := if c.clientId = "A" then [oA1] else [oB1], has_next := false }

/-- Sample group whose only member order has quantity zero. -/
def gQ0 : SmartGroup := { product := prodQ0, orders := [oQ0], currency := "USD" }

/-- Sample order list producing one group of two orders and one group
of a single order. -/
def ordersEx : List OzonPosting := [oA1, oB1, oA2]

/-- The group that `ordersEx` produces for offer id `OF1`. -/
def gEx : SmartGroup := { product := prodA, orders := [oA1, oA2], currency := "CNY" }

/-- Invariant tying one entry of the groups record to the list of
orders processed so far: the entry is keyed by its representative
product's offer id, its member orders are exactly the processed
single-item orders with that key in encounter order, its representative
product is the single line item of its first member order, and its
currency is that product's currency defaulted to `'RUB'`. -/
def entryInv (os : List OzonPosting) (kg : String × SmartGroup) : Prop :=
  kg.1 = kg.2.product.offer_id
  ∧ kg.2.orders = os.filter (fun o => keyOf o = some kg.1)
  ∧ kg.2.orders.head?.bind (fun o => o.products.head?) = some kg.2.product
  ∧ kg.2.currency = jsOrString kg.2.product.currency_code "RUB"

/-! Shared lemmas. -/

/-- A key-descending insertion sort is sorted: every element is
followed only by elements with a key no larger than its own. -/
theorem sorted_key_insertionSort {α β : Type*} [LinearOrder β] (key : α → β) (l : List α) :
    List.Sorted (fun a b => key b ≤ key a) (List.insertionSort (fun a b => key b ≤ key a) l) := by
  haveI : IsTotal α (fun a b => key b ≤ key a) := ⟨fun a b => le_total (key b) (key a)⟩
  haveI : IsTrans α (fun a b => key b ≤ key a) := ⟨fun _ _ _ hab hbc => le_trans hbc hab⟩
  exact List.sorted_insertionSort _ l

/-- Inserting into a key-descending sort run passes only over elements
with strictly larger keys, so the elements of any one key level keep
their order. -/
theorem filter_key_orderedInsert {α β : Type*} [LinearOrder β] (key : α → β) (n : β)
    (a : α) (l : List α) :
    (List.orderedInsert (fun a b => key b ≤ key a) a l).filter (fun x => key x = n)
      = if key a = n then a :: l.filter (fun x => key x = n)
        else l.filter (fun x => key x = n) := by
  induction l with
  | nil =>
    by_cases ha : key a = n <;> simp [List.orderedInsert, List.filter_cons, ha]
  | cons b l ih =>
    by_cases hab : key b ≤ key a
    · rw [List.orderedInsert, if_pos hab]
      by_cases ha : key a = n <;> by_cases hb : key b = n <;>
        simp [List.filter_cons, ha, hb]
    · have hlt : key a < key b := lt_of_not_le hab
      simp only [List.orderedInsert, if_neg hab, List.filter_cons, decide_eq_true_eq, ih]
      by_cases ha : key a = n
      · have hb : ¬key b = n := fun hb => ne_of_lt hlt (ha.trans hb.symm)
        simp [ha, hb]
      · by_cases hb : key b = n <;> simp [ha, hb]

/-- Stability of the key-descending insertion sort: restricted to any
one key level, sorting is the identity on the order of elements. -/
theorem filter_key_insertionSort {α β : Type*} [LinearOrder β] (key : α → β) (n : β)
    (l : List α) :
    (List.insertionSort (fun a b => key b ≤ key a) l).filter (fun x => key x = n)
      = l.filter (fun x => key x = n) := by
  induction l with
  | nil => rfl
  | cons a l ih =>
    by_cases ha : key a = n <;>
      simp [List.insertionSort, filter_key_orderedInsert, ih, List.filter_cons, ha]

/-- A left fold adding a projection is the sum of the mapped list. -/
theorem foldl_add_eq_sum_map {α : Type*} (f : α → Nat) (l : List α) (a : Nat) :
    l.foldl (fun s o => s + f o) a = a + (l.map f).sum := by
  induction l generalizing a with
  | nil => simp
  | cons x l ih => simp [ih, Nat.add_assoc]

/-- Every order returned by a per-store fetch is tagged with that
store's client id. -/
theorem mem_fetchOrdersForStore_clientId (env : Transport) (cred : OzonCredentials)
    (days : Nat) : ∀ o ∈ (fetchOrdersForStore env cred days).1,
      o.clientId = some cred.clientId := by
  intro o ho
  cases h : (fetchLoop (env cred days) 0 [] 0).1 with
  | error e => simp [fetchOrdersForStore, h] at ho
  | ok ps =>
    simp only [fetchOrdersForStore, h, tagOrders, List.mem_map] at ho
    obtain ⟨p, _, rfl⟩ := ho
    rfl

/-- Upper bound on the number of transport requests the pagination loop
makes from a given offset. -/
theorem fetchLoop_calls_le (t : Nat → Except String PageResult) (offset : Nat)
    (acc : List OzonPosting) (calls : Nat) :
    (fetchLoop t offset acc calls).2 ≤ calls + (10000 - offset) / 100 + 1 := by
  induction offset, acc, calls using fetchLoop.induct t with
  | case1 offset acc calls e ht =>
    rw [fetchLoop, ht]
    show calls + 1 ≤ calls + (10000 - offset) / 100 + 1
    omega
  | case2 offset acc calls page ht hcap =>
    rw [fetchLoop, ht]
    dsimp only
    rw [dif_pos hcap]
    show calls + 1 ≤ calls + (10000 - offset) / 100 + 1
    omega
  | case3 offset acc calls page ht hcap hnext ih =>
    rw [fetchLoop, ht]
    dsimp only
    rw [dif_neg hcap, if_pos hnext]
    exact le_trans ih (by omega)
  | case4 offset acc calls page ht hcap hnext =>
    rw [fetchLoop, ht]
    dsimp only
    rw [dif_neg hcap, if_neg hnext]
    show calls + 1 ≤ calls + (10000 - offset) / 100 + 1
    omega

/-! Claim theorems. -/

/-- C10 (confirmed): the deprecated single-store entry point
`fetchOrders(credential, days)` returns exactly the result of
`fetchAggregatedOrders([credential], days)` — it is definitionally the
aggregated fetch applied to a singleton credential list. -/
theorem claimC10 (env : Transport) (cred : OzonCredentials) (days : Nat) :
    fetchOrders env cred days = fetchAggregatedOrders env [cred] days := rfl

/-- C1 (counterexample): on an order whose financial data is present
but sums to zero (here: an empty financial products list) and whose
line items have nonzero unit prices, the per-order revenue used by the
stats is the fallback sum 7, while the claimed formula — financial sum
whenever financial data is present — yields 0. -/
theorem claimC1_cex :
    exFinZero.financial_data = some [] ∧ orderTotal exFinZero = 7
      ∧ claimedRevenueC1 exFinZero = 0
      ∧ orderTotal exFinZero ≠ claimedRevenueC1 exFinZero := by decide

/-- C1 (amended, confirmed): the per-order revenue equals the sum of
the financial payout entries when financial data is present with a
nonzero sum, and otherwise — financial data absent or summing to
zero — the sum of the unit prices of its line items, quantity not
multiplied into the fallback. -/
theorem claimC1 (o : OzonPosting) : orderTotal o = amendedRevenueC1 o := by
  unfold orderTotal amendedRevenueC1
  cases o.financial_data with
  | none => rfl
  | some fps =>
    by_cases h : (fps.map (fun p => p.price)).sum = 0 <;> simp [h]

/-- C9 (confirmed): whenever an order's financial payout data sums to
zero — including an empty financial products list — the truthiness
test makes the revenue fall back to the sum of the line items' unit
prices instead of 0. -/
theorem claimC9 (o : OzonPosting) (fps : List FinancialProduct)
    (hfd : o.financial_data = some fps)
    (hz : (fps.map (fun p => p.price)).sum = 0) :
    orderTotal o = fallbackSum o := by
  simp [orderTotal, hfd, hz]

/-- C9 witness: the order with an empty financial products list gets
revenue 7, the sum of its line items' unit prices. -/
theorem claimC9_wit : orderTotal exFinZero = fallbackSum exFinZero
    ∧ fallbackSum exFinZero = 7 :=
  ⟨claimC9 exFinZero [] rfl rfl, by decide⟩

/-- C3 (counterexample): an order with an empty line-item list is not
excluded from revenue math — on the singleton input the stats produce a
`'RUB'` bucket whose order count is 1 (and amount 0), while the claim
requires that such an order contribute to no bucket's count. -/
theorem claimC3_cex :
    exNoItems.products = []
      ∧ (computeStats [exNoItems]).revenueByCurrency
          = [("RUB", { amount := 0, count := 1 })]
      ∧ (computeStats [exNoItems]).totalOrders = 1 := by decide

/-- C3 (amended, confirmed): an order with an empty line-item list is
counted toward `totalOrders` and is also included in revenue math: it
falls into the default `'RUB'` currency bucket, incrementing that
bucket's order count and adding its order total — which is 0 whenever
financial data is absent — to the bucket's amount. -/
theorem claimC3 (os : List OzonPosting) (o : OzonPosting) (hp : o.products = []) :
    computeBuckets (os ++ [o]) = updateAssoc (computeBuckets os) "RUB" (orderTotal o)
    ∧ (o.financial_data = none → orderTotal o = 0)
    ∧ (computeStats (os ++ [o])).totalOrders = (computeStats os).totalOrders + 1 := by
  refine ⟨?_, ?_, ?_⟩
  · simp [computeBuckets, List.foldl_append, orderCurrency, hp]
  · intro h
    simp [orderTotal, h, fallbackSum, hp]
  · simp [computeStats]

/-- C3 witness: the amended statement at the concrete empty-line-item
order appended to the empty order list. -/
theorem claimC3_wit :
    computeBuckets ([] ++ [exNoItems])
        = updateAssoc (computeBuckets []) "RUB" (orderTotal exNoItems)
    ∧ (exNoItems.financial_data = none → orderTotal exNoItems = 0)
    ∧ (computeStats ([] ++ [exNoItems])).totalOrders = (computeStats []).totalOrders + 1 :=
  claimC3 [] exNoItems rfl

/-- C6 (confirmed): the pagination loop terminates (it is a total
function); from offset 0 it makes at most 101 transport requests; a
page with `has_next = false` ends the loop normally with the
accumulated orders; and once the advanced offset exceeds 10,000 the
loop ends normally — an `Except.ok`, not an error — regardless of
`has_next`. -/
theorem claimC6 (t : Nat → Except String PageResult) :
    (fetchLoop t 0 [] 0).2 ≤ 101
    ∧ (∀ offset acc calls page, t offset = .ok page → page.has_next = false →
        fetchLoop t offset acc calls = (.ok (acc ++ page.postings), calls + 1))
    ∧ (∀ offset acc calls page, t offset = .ok page → 10000 < offset + 100 →
        fetchLoop t offset acc calls = (.ok (acc ++ page.postings), calls + 1)) := by
  refine ⟨?_, ?_, ?_⟩
  · have h := fetchLoop_calls_le t 0 [] 0
    omega
  · intro offset acc calls page ht hnext
    rw [fetchLoop, ht]
    dsimp only
    by_cases hcap : 10000 < offset + 100
    · rw [dif_pos hcap]
    · rw [dif_neg hcap, if_neg (by simp [hnext])]
  · intro offset acc calls page ht hcap
    rw [fetchLoop, ht]
    dsimp only
    rw [dif_pos hcap]

/-- C6 witness: a transport answering a single final page stops after
one request; the cap branch fires at offset 10,000; and the 101-request
bound holds for a transport that always promises more pages. -/
theorem claimC6_wit :
    fetchLoop (fun _ => .ok { postings := [], has_next := false }) 0 [] 0
        = (.ok ([] ++ []), 0 + 1)
    ∧ fetchLoop (fun _ => .ok { postings := [oB1], has_next := true }) 10000 [] 7
        = (.ok ([] ++ [oB1]), 7 + 1)
    ∧ (fetchLoop (fun _ => .ok { postings := [], has_next := true }) 0 [] 0).2 ≤ 101 :=
  ⟨(claimC6 _).2.1 0 [] 0 { postings := [], has_next := false } rfl rfl,
   (claimC6 _).2.2 10000 [] 7 { postings := [oB1], has_next := true } rfl (by norm_num),
   (claimC6 _).1⟩

/-- C2 (confirmed): after all per-store fetches settle, the aggregated
fetch yields, alongside the merged order set, the collected per-store
failure warnings (store id plus message, one per failed store); in the
two-store instance where store A fails and store B succeeds, the result
contains all of B's orders and exactly one warning naming store A. -/
theorem claimC2 (env : Transport) (days : Nat) (A B : OzonCredentials) (e : String)
    (ps : List OzonPosting)
    (hA : (fetchLoop (env A days) 0 [] 0).1 = .error e)
    (hB : (fetchLoop (env B days) 0 [] 0).1 = .ok ps) :
    (fetchAggregatedOrders env [A, B] days).2
        = [{ storeId := A.clientId, message := e }]
    ∧ (∀ p ∈ tagOrders B.clientId ps, p ∈ (fetchAggregatedOrders env [A, B] days).1)
    ∧ (fetchAggregatedOrders env [A, B] days).1.length = ps.length
    ∧ ∀ creds, (fetchAggregatedOrders env creds days).2
        = (creds.map (fun c => (fetchOrdersForStore env c days).2)).flatten := by
  have hFA : fetchOrdersForStore env A days
      = ([], [{ storeId := A.clientId, message := e }]) := by
    simp [fetchOrdersForStore, hA]
  have hFB : fetchOrdersForStore env B days = (tagOrders B.clientId ps, []) := by
    simp [fetchOrdersForStore, hB]
  refine ⟨?_, ?_, ?_, ?_⟩
  · simp [fetchAggregatedOrders, hFA, hFB]
  · intro p hp
    simpa [fetchAggregatedOrders, hFA, hFB] using hp
  · simp [fetchAggregatedOrders, hFA, hFB, tagOrders]
  · intro creds
    by_cases hc : creds.isEmpty
    · have hnil : creds = [] := by simpa [List.isEmpty_iff] using hc
      simp [fetchAggregatedOrders, hnil]
    · have hne : creds ≠ [] := by simpa [List.isEmpty_iff] using hc
      simp [fetchAggregatedOrders, hne, List.map_map]
      rfl

/-- C2 witness: with the concrete transport where store A fails with
message `boom` and store B delivers one order, the aggregate holds B's
order and the single warning names A. -/
theorem claimC2_wit :
    (fetchAggregatedOrders envAB [credA, credB] 15).2
        = [{ storeId := credA.clientId, message := "boom" }]
    ∧ ∀ p ∈ tagOrders credB.clientId [oB1],
        p ∈ (fetchAggregatedOrders envAB [credA, credB] 15).1 := by
  have hA : (fetchLoop (envAB credA 15) 0 [] 0).1 = .error "boom" := by
    rw [fetchLoop]
    simp [envAB, credA]
  have hB : (fetchLoop (envAB credB 15) 0 [] 0).1 = .ok [oB1] := by
    rw [fetchLoop]
    simp [envAB, credB]
  have h := claimC2 envAB 15 credA credB "boom" [oB1] hA hB
  exact ⟨h.1, h.2.1⟩

/-- C5 (confirmed): when any page fetch of a store's pagination loop
fails, that store's whole per-store fetch is abandoned: the accumulated
orders are discarded and the store contributes the empty list plus its
failure warning, while every order of any successful store is still
present in the aggregated output. -/
theorem claimC5 (env : Transport) (cred : OzonCredentials) (days : Nat) (e : String)
    (hfail : (fetchLoop (env cred days) 0 [] 0).1 = .error e) :
    fetchOrdersForStore env cred days
        = ([], [{ storeId := cred.clientId, message := e }])
    ∧ ∀ (B : OzonCredentials) (ps : List OzonPosting),
        (fetchLoop (env B days) 0 [] 0).1 = .ok ps →
        ∀ p ∈ tagOrders B.clientId ps, p ∈ (fetchAggregatedOrders env [cred, B] days).1 := by
  have hFA : fetchOrdersForStore env cred days
      = ([], [{ storeId := cred.clientId, message := e }]) := by
    simp [fetchOrdersForStore, hfail]
  refine ⟨hFA, ?_⟩
  intro B ps hB p hp
  have hFB : fetchOrdersForStore env B days = (tagOrders B.clientId ps, []) := by
    simp [fetchOrdersForStore, hB]
  simpa [fetchAggregatedOrders, hFA, hFB] using hp

/-- C5 witness: with the concrete transport where store A's first page
succeeds (carrying one order) but its second page fails, store A
contributes nothing — the accumulated first page is discarded — while
store B's order is still aggregated. -/
theorem claimC5_wit :
    fetchOrdersForStore envMid credA 15
        = ([], [{ storeId := credA.clientId, message := "page failure" }])
    ∧ ∀ p ∈ tagOrders credB.clientId [oB1],
        p ∈ (fetchAggregatedOrders envMid [credA, credB] 15).1 := by
  have hfail : (fetchLoop (envMid credA 15) 0 [] 0).1 = .error "page failure" := by
    rw [fetchLoop]
    simp only [envMid, credA]
    norm_num
    rw [fetchLoop]
    simp [envMid, credA]
  have hB : (fetchLoop (envMid credB 15) 0 [] 0).1 = .ok [oB1] := by
    rw [fetchLoop]
    simp [envMid, credB]
  have h := claimC5 envMid credA 15 "page failure" hfail
  exact ⟨h.1, h.2 credB [oB1] hB⟩

/-- C4 (confirmed): the aggregated order sequence is sorted
non-increasing by `in_process_at` — every adjacent pair `(a, b)`
satisfies `b.in_process_at ≤ a.in_process_at` — and every returned
order was produced by the per-store fetch of some credential in the
list and carries that credential's client id. -/
theorem claimC4 (env : Transport) (creds : List OzonCredentials) (days : Nat) :
    List.Chain' (fun a b => b.in_process_at ≤ a.in_process_at)
      (fetchAggregatedOrders env creds days).1
    ∧ ∀ o ∈ (fetchAggregatedOrders env creds days).1,
        ∃ c ∈ creds, o ∈ (fetchOrdersForStore env c days).1
          ∧ o.clientId = some c.clientId := by
  constructor
  · by_cases hc : creds.isEmpty
    · simp [fetchAggregatedOrders, hc]
    · have hs := sorted_key_insertionSort (fun p : OzonPosting => p.in_process_at)
        (((creds.map (fun cred => fetchOrdersForStore env cred days)).map Prod.fst).flatten)
      simp only [fetchAggregatedOrders, if_neg hc]
      exact List.Pairwise.chain' hs
  · intro o ho
    by_cases hc : creds.isEmpty
    · simp [fetchAggregatedOrders, hc] at ho
    · simp only [fetchAggregatedOrders, if_neg hc, List.mem_insertionSort,
        List.map_map, List.mem_flatten, List.mem_map, Function.comp] at ho
      obtain ⟨l, ⟨c, hcmem, rfl⟩, hol⟩ := ho
      exact ⟨c, hcmem, hol, mem_fetchOrdersForStore_clientId env c days o hol⟩

/-- C4 witness: with the concrete two-store transport, the aggregate is
sorted non-increasing by timestamp, and store B's tagged order is
traced back to credential B. -/
theorem claimC4_wit :
    List.Chain' (fun a b => b.in_process_at ≤ a.in_process_at)
      (fetchAggregatedOrders envOk [credA, credB] 15).1
    ∧ ∃ c ∈ [credA, credB],
        ({ oB1 with clientId := some credB.clientId } : OzonPosting)
            ∈ (fetchOrdersForStore envOk c 15).1
        ∧ ({ oB1 with clientId := some credB.clientId } : OzonPosting).clientId
            = some c.clientId := by
  have h1 : (fetchLoop (envOk credA 15) 0 [] 0).1 = .ok [oA1] := by
    rw [fetchLoop]
    simp [envOk, credA]
  have h2 : (fetchLoop (envOk credB 15) 0 [] 0).1 = .ok [oB1] := by
    rw [fetchLoop]
    simp [envOk, credB]
  have hFA : fetchOrdersForStore envOk credA 15 = (tagOrders credA.clientId [oA1], []) := by
    simp [fetchOrdersForStore, h1]
  have hFB : fetchOrdersForStore envOk credB 15 = (tagOrders credB.clientId [oB1], []) := by
    simp [fetchOrdersForStore, h2]
  have h := claimC4 envOk [credA, credB] 15
  refine ⟨h.1, h.2 _ ?_⟩
  simp [fetchAggregatedOrders, hFA, hFB, tagOrders]
  decide

/-- Doubling behaviour of the quote-escaping map at character level:
the escaped text has twice as many quote characters. -/
theorem flatMap_quotes_count (l : List Char) :
    (l.flatMap (fun c => if c = '\"' then ['\"', '\"'] else [c])).count '\"'
      = 2 * l.count '\"' := by
  induction l with
  | nil => rfl
  | cons c l ih =>
    by_cases hc : c = '\"'
    · simp [hc, ih, List.count_cons, List.count_append]
      omega
    · simp [hc, ih, List.count_cons, List.count_append]

/-- The quote-escaping map leaves the non-quote characters untouched,
in order. -/
theorem flatMap_quotes_filter (l : List Char) :
    (l.flatMap (fun c => if c = '\"' then ['\"', '\"'] else [c])).filter (fun c => c ≠ '\"')
      = l.filter (fun c => c ≠ '\"') := by
  induction l with
  | nil => rfl
  | cons c l ih =>
    simp only [ne_eq, decide_not] at ih ⊢
    by_cases hc : c = '\"' <;> simp [hc, ih, List.filter_cons, List.filter_append]

/-- The export's per-row total quantity agrees with the amended claim
formula: quantity, defaulting to 1 when absent or zero. -/
theorem totalQty_eq_amended (g : SmartGroup) : totalQty g = amendedQtyC8 g := by
  rw [totalQty, foldl_add_eq_sum_map, Nat.zero_add]
  rfl

/-- Character content of the export fold: the accumulated text followed
by each row's characters in turn. -/
theorem foldl_rows_data (packed : List String) (gs : List SmartGroup) (acc : String) :
    (gs.foldl (fun a g => a ++ groupRow packed g) acc).data
      = acc.data ++ ((gs.map (groupRow packed)).map String.data).flatten := by
  induction gs generalizing acc with
  | nil => simp
  | cons g gs ih => simp [ih, String.data_append]

/-- C8 (counterexample): a group whose single member order carries
quantity 0 exports total quantity 1 (the `|| 1` default also fires on
zero), while the claimed formula — quantity, defaulting to 1 only when
absent — yields 0; the full exported row shows the 1. -/
theorem claimC8_cex :
    totalQty gQ0 = 1 ∧ claimedQtyC8 gQ0 = 0
      ∧ groupRow [] gQ0 = "OF3,3,\"Gamma\",4,USD,1,1,0\n" := by decide

/-- C8 (amended, confirmed): for every nonempty group list, the export
produces text that begins with the byte-order marker, consists of the
marker, the header and one data row per group, and in every row the
name field is quoted with internal quote characters doubled (all other
name characters kept in order) while the total-quantity field is the
sum over member orders of the line item's quantity, defaulting to 1
when the quantity is absent or zero. -/
theorem claimC8 (gs : List SmartGroup) (packed : List String) (hne : gs ≠ []) :
    ∃ t, toDelimitedText gs packed = some t
      ∧ t.data.head? = some (Char.ofNat 0xFEFF)
      ∧ t.data = bomStr.data ++ csvHeader.data
          ++ ((gs.map (groupRow packed)).map String.data).flatten
      ∧ ∀ g ∈ gs,
          groupRow packed g
            = g.product.offer_id ++ "," ++ toString g.product.sku ++ ",\""
              ++ escQuotes g.product.name ++ "\"," ++ toString g.product.price ++ ","
              ++ g.currency ++ "," ++ toString (totalQty g) ++ ","
              ++ toString (g.orders.length - packedCount packed g) ++ ","
              ++ toString (packedCount packed g) ++ "\n"
          ∧ (escQuotes g.product.name).data.count '\"'
              = 2 * g.product.name.data.count '\"'
          ∧ (escQuotes g.product.name).data.filter (fun c => c ≠ '\"')
              = g.product.name.data.filter (fun c => c ≠ '\"')
          ∧ totalQty g = amendedQtyC8 g := by
  have hbom : bomStr.data = [Char.ofNat 0xFEFF] := by decide
  refine ⟨gs.foldl (fun acc g => acc ++ groupRow packed g) (bomStr ++ csvHeader), ?_, ?_, ?_, ?_⟩
  · rw [toDelimitedText, if_neg (by simpa [List.isEmpty_iff] using hne)]
  · rw [foldl_rows_data, String.data_append, hbom]
    rfl
  · rw [foldl_rows_data, String.data_append, List.append_assoc]
  · intro g _
    exact ⟨rfl, flatMap_quotes_count g.product.name.data,
      flatMap_quotes_filter g.product.name.data, totalQty_eq_amended g⟩

/-- C8 witness: the amended statement at the singleton group list whose
member order has quantity zero. -/
theorem claimC8_wit :
    ∃ t, toDelimitedText [gQ0] [] = some t
      ∧ t.data.head? = some (Char.ofNat 0xFEFF)
      ∧ t.data = bomStr.data ++ csvHeader.data
          ++ (([gQ0].map (groupRow [])).map String.data).flatten
      ∧ ∀ g ∈ [gQ0],
          groupRow [] g
            = g.product.offer_id ++ "," ++ toString g.product.sku ++ ",\""
              ++ escQuotes g.product.name ++ "\"," ++ toString g.product.price ++ ","
              ++ g.currency ++ "," ++ toString (totalQty g) ++ ","
              ++ toString (g.orders.length - packedCount [] g) ++ ","
              ++ toString (packedCount [] g) ++ "\n"
          ∧ (escQuotes g.product.name).data.count '\"'
              = 2 * g.product.name.data.count '\"'
          ∧ (escQuotes g.product.name).data.filter (fun c => c ≠ '\"')
              = g.product.name.data.filter (fun c => c ≠ '\"')
          ∧ totalQty g = amendedQtyC8 g :=
  claimC8 [gQ0] [] (by simp)

/-- Membership in the first-encounter key dedup: exactly the keys of
the list that are not among the already-seen ones. -/
theorem mem_dedupFirstAux (l : List String) :
    ∀ (seen : List String) (a : String),
      a ∈ dedupFirstAux l seen ↔ a ∈ l ∧ a ∉ seen := by
  induction l with
  | nil => simp [dedupFirstAux]
  | cons k ks ih =>
    intro seen a
    by_cases hk : k ∈ seen
    · rw [dedupFirstAux, if_pos hk, ih]
      constructor
      · rintro ⟨h1, h2⟩
        exact ⟨List.mem_cons_of_mem _ h1, h2⟩
      · rintro ⟨h1, h2⟩
        rcases List.mem_cons.mp h1 with rfl | h1
        · exact absurd hk h2
        · exact ⟨h1, h2⟩
    · rw [dedupFirstAux, if_neg hk]
      constructor
      · intro h
        rcases List.mem_cons.mp h with rfl | h
        · exact ⟨List.mem_cons_self _ _, hk⟩
        · rw [ih] at h
          exact ⟨List.mem_cons_of_mem _ h.1, fun hs => h.2 (List.mem_cons_of_mem _ hs)⟩
      · rintro ⟨h1, h2⟩
        rcases List.mem_cons.mp h1 with rfl | h1
        · exact List.mem_cons_self _ _
        · by_cases hak : a = k
          · subst hak
            exact List.mem_cons_self _ _
          · refine List.mem_cons_of_mem _ ((ih _ _).mpr ⟨h1, fun hs => ?_⟩)
            rcases List.mem_cons.mp hs with rfl | hs
            · exact hak rfl
            · exact h2 hs

/-- Appending one key to the scanned list: a key already present (in
the list or the seen set) changes nothing, a fresh key is appended at
the end of the dedup. -/
theorem dedupFirstAux_append (l : List String) :
    ∀ (seen : List String) (k : String),
      dedupFirstAux (l ++ [k]) seen
        = if k ∈ l ∨ k ∈ seen then dedupFirstAux l seen
          else dedupFirstAux l seen ++ [k] := by
  induction l with
  | nil =>
    intro seen k
    by_cases hk : k ∈ seen <;> simp [dedupFirstAux, hk]
  | cons a l ih =>
    intro seen k
    by_cases ha : a ∈ seen
    · have hcond : (k ∈ a :: l ∨ k ∈ seen) ↔ (k ∈ l ∨ k ∈ seen) := by
        constructor
        · rintro (h | h)
          · rcases List.mem_cons.mp h with rfl | h
            · exact Or.inr ha
            · exact Or.inl h
          · exact Or.inr h
        · rintro (h | h)
          · exact Or.inl (List.mem_cons_of_mem _ h)
          · exact Or.inr h
      rw [List.cons_append, dedupFirstAux, if_pos ha, ih, dedupFirstAux, if_pos ha]
      simp only [hcond]
    · have hcond : (k ∈ a :: l ∨ k ∈ seen) ↔ (k ∈ l ∨ k ∈ a :: seen) := by
        constructor
        · rintro (h | h)
          · rcases List.mem_cons.mp h with rfl | h
            · exact Or.inr (List.mem_cons_self _ _)
            · exact Or.inl h
          · exact Or.inr (List.mem_cons_of_mem _ h)
        · rintro (h | h)
          · exact Or.inl (List.mem_cons_of_mem _ h)
          · rcases List.mem_cons.mp h with rfl | h
            · exact Or.inl (List.mem_cons_self _ _)
            · exact Or.inr h
      rw [List.cons_append, dedupFirstAux, if_neg ha, ih, dedupFirstAux, if_neg ha]
      simp only [hcond]
      split_ifs <;> rfl

/-- Key list of the groups record after inserting one single-item
order: unchanged when the key is known, extended at the end when it is
new. -/
theorem pushToGroup_keys (k : String) (o : OzonPosting) (p : OzonProduct) :
    ∀ gs : List (String × SmartGroup),
      (pushToGroup k o p gs).map Prod.fst
        = if k ∈ gs.map Prod.fst then gs.map Prod.fst
          else gs.map Prod.fst ++ [k] := by
  intro gs
  induction gs with
  | nil => simp [pushToGroup]
  | cons kg rest ih =>
    obtain ⟨k', g⟩ := kg
    by_cases hk : k' = k
    · subst hk
      simp [pushToGroup]
    · rw [pushToGroup, if_neg hk]
      simp only [List.map_cons, ih, List.mem_cons]
      have hne : ¬k = k' := fun h => hk h.symm
      by_cases hr : k ∈ rest.map Prod.fst
      · simp [hr, hne]
      · simp [hr, hne]

/-- Inserting one order into the groups record grows the total member
count by exactly one. -/
theorem pushToGroup_lensum (k : String) (o : OzonPosting) (p : OzonProduct) :
    ∀ gs : List (String × SmartGroup),
      ((pushToGroup k o p gs).map (fun kg => kg.2.orders.length)).sum
        = ((gs.map (fun kg => kg.2.orders.length)).sum) + 1 := by
  intro gs
  induction gs with
  | nil => simp [pushToGroup]
  | cons kg rest ih =>
    obtain ⟨k', g⟩ := kg
    by_cases hk : k' = k
    · subst hk
      simp [pushToGroup, Nat.add_assoc, Nat.add_comm 1]
    · rw [pushToGroup, if_neg hk]
      simp [ih, Nat.add_assoc]

/-- Inserting one single-item order preserves the per-entry invariant,
advancing the processed order list by that order. -/
theorem pushToGroup_entryInv (os : List OzonPosting) (o : OzonPosting) (p : OzonProduct)
    (hps : o.products = [p]) :
    ∀ gs : List (String × SmartGroup),
      (∀ kg ∈ gs, entryInv os kg) →
      ((gs.map Prod.fst).Nodup) →
      (p.offer_id ∈ gs.map Prod.fst
        ∨ os.filter (fun o' => keyOf o' = some p.offer_id) = []) →
      ∀ kg ∈ pushToGroup p.offer_id o p gs, entryInv (os ++ [o]) kg := by
  have hko : keyOf o = some p.offer_id := by simp [keyOf, hps]
  intro gs
  induction gs with
  | nil =>
    intro _ _ hfree kg hkg
    rcases hfree with hmem | hfilter
    · simp at hmem
    · rw [pushToGroup] at hkg
      rcases List.mem_singleton.mp hkg with rfl
      refine ⟨rfl, ?_, ?_, rfl⟩
      · simp [List.filter_append, hfilter, List.filter_cons, hko]
      · simp [hps]
  | cons kg₀ rest ih =>
    intro hinv hnodup hfree kg hkg
    obtain ⟨k', g⟩ := kg₀
    by_cases hk : k' = p.offer_id
    · subst hk
      rw [pushToGroup, if_pos rfl] at hkg
      rcases List.mem_cons.mp hkg with rfl | hkg
      · obtain ⟨e1, e2, e3, e4⟩ := hinv _ (List.mem_cons_self _ _)
        have e2' : g.orders = os.filter (fun o' => keyOf o' = some p.offer_id) := e2
        have e3' : g.orders.head?.bind (fun o' => o'.products.head?) = some g.product := e3
        refine ⟨e1, ?_, ?_, e4⟩
        · show g.orders ++ [o] = (os ++ [o]).filter (fun o' => keyOf o' = some p.offer_id)
          rw [List.filter_append, ← e2']
          simp [List.filter_cons, hko]
        · show (g.orders ++ [o]).head?.bind (fun o' => o'.products.head?) = some g.product
          cases hgo : g.orders with
          | nil => rw [hgo] at e3'; simp at e3'
          | cons x xs => rw [hgo] at e3'; simpa using e3'
      · obtain ⟨e1, e2, e3, e4⟩ := hinv _ (List.mem_cons_of_mem _ hkg)
        have hkne : kg.1 ≠ p.offer_id := by
          intro h
          have hm : kg.1 ∈ rest.map Prod.fst := List.mem_map.mpr ⟨kg, hkg, rfl⟩
          rw [List.map_cons] at hnodup
          exact (List.nodup_cons.mp hnodup).1 (h ▸ hm)
        have hno : ¬(keyOf o = some kg.1) := by
          rw [hko]
          exact fun h => hkne (Option.some.inj h).symm
        refine ⟨e1, ?_, e3, e4⟩
        rw [List.filter_append, e2]
        simp [List.filter_cons, hno]
    · rw [pushToGroup, if_neg hk] at hkg
      rcases List.mem_cons.mp hkg with rfl | hkg
      · obtain ⟨e1, e2, e3, e4⟩ := hinv _ (List.mem_cons_self _ _)
        have e2' : g.orders = os.filter (fun o' => keyOf o' = some k') := e2
        have hno : ¬(keyOf o = some k') := by
          rw [hko]
          exact fun h => hk (Option.some.inj h).symm
        refine ⟨e1, ?_, e3, e4⟩
        show g.orders = (os ++ [o]).filter (fun o' => keyOf o' = some k')
        rw [List.filter_append, ← e2']
        simp [List.filter_cons, hno]
      · refine ih (fun x hx => hinv x (List.mem_cons_of_mem _ hx))
          ((List.nodup_cons.mp (by simpa using hnodup)).2) ?_ kg hkg
        rcases hfree with hmem | hfilter
        · rw [List.map_cons] at hmem
          rcases List.mem_cons.mp hmem with h | h
          · exact absurd h.symm hk
          · exact Or.inl h
        · exact Or.inr hfilter

/-- Processing an order with no grouping key (other than exactly one
line item) preserves every entry's invariant. -/
theorem entryInv_extend_none (os : List OzonPosting) (o : OzonPosting)
    (hko : keyOf o = none) (kg : String × SmartGroup) (h : entryInv os kg) :
    entryInv (os ++ [o]) kg := by
  obtain ⟨e1, e2, e3, e4⟩ := h
  refine ⟨e1, ?_, e3, e4⟩
  rw [List.filter_append, e2]
  simp [List.filter_cons, hko]

/-- The grouping key exists exactly for the single-line-item orders, so
both counts agree. -/
theorem filterMap_keyOf_length (os : List OzonPosting) :
    (os.filterMap keyOf).length = (os.filter (fun o => o.products.length = 1)).length := by
  induction os with
  | nil => rfl
  | cons o os ih =>
    rcases hp : o.products with _ | ⟨p, _ | ⟨q, rest3⟩⟩ <;>
      simp [List.filterMap_cons, List.filter_cons, keyOf, hp, ih]

/-- Main invariant of the grouping fold: every entry of the groups
record satisfies `entryInv`, the keys are distinct and appear in order
of first encounter, and the total member count equals the number of
single-item orders processed. -/
theorem groupAssoc_inv (os : List OzonPosting) :
    (∀ kg ∈ groupAssoc os, entryInv os kg)
    ∧ ((groupAssoc os).map Prod.fst).Nodup
    ∧ (groupAssoc os).map Prod.fst = dedupFirst (os.filterMap keyOf)
    ∧ ((groupAssoc os).map (fun kg => kg.2.orders.length)).sum
        = (os.filterMap keyOf).length := by
  induction os using List.reverseRecOn with
  | nil =>
    exact ⟨by simp [groupAssoc], by simp [groupAssoc],
      by simp [groupAssoc, dedupFirst, dedupFirstAux], by simp [groupAssoc]⟩
  | append_singleton os o ih =>
    obtain ⟨ih1, ih2, ih3, ih4⟩ := ih
    have hga : groupAssoc (os ++ [o]) = addToGroups (groupAssoc os) o := by
      rw [groupAssoc, groupAssoc, List.foldl_append, List.foldl_cons, List.foldl_nil]
    rcases hp : o.products with _ | ⟨p, _ | ⟨q, rest3⟩⟩
    · have hko : keyOf o = none := by simp [keyOf, hp]
      have hadd : addToGroups (groupAssoc os) o = groupAssoc os := by
        simp [addToGroups, hp]
      rw [hga, hadd]
      refine ⟨fun kg hkg => entryInv_extend_none os o hko kg (ih1 kg hkg), ih2, ?_, ?_⟩
      · rw [List.filterMap_append]
        simp [List.filterMap_cons, hko, ih3]
      · rw [List.filterMap_append]
        simp [List.filterMap_cons, hko, ih4]
    · have hko : keyOf o = some p.offer_id := by simp [keyOf, hp]
      have hadd : addToGroups (groupAssoc os) o = pushToGroup p.offer_id o p (groupAssoc os) := by
        simp [addToGroups, hp]
      have hmemiff : p.offer_id ∈ (groupAssoc os).map Prod.fst
          ↔ p.offer_id ∈ os.filterMap keyOf := by
        rw [ih3, dedupFirst, mem_dedupFirstAux]
        simp
      have hfree : p.offer_id ∈ (groupAssoc os).map Prod.fst
          ∨ os.filter (fun o' => keyOf o' = some p.offer_id) = [] := by
        by_cases hz : p.offer_id ∈ (groupAssoc os).map Prod.fst
        · exact Or.inl hz
        · refine Or.inr (List.filter_eq_nil_iff.mpr ?_)
          intro x hx
          simp only [decide_eq_true_eq, Bool.not_eq_true]
          intro hkx
          exact (hmemiff.not.mp hz) (List.mem_filterMap.mpr ⟨x, hx, hkx⟩)
      have hfm : (os ++ [o]).filterMap keyOf = os.filterMap keyOf ++ [p.offer_id] := by
        rw [List.filterMap_append]
        simp [List.filterMap_cons, hko]
      rw [hga, hadd]
      refine ⟨pushToGroup_entryInv os o p hp (groupAssoc os) ih1 ih2 hfree, ?_, ?_, ?_⟩
      · rw [pushToGroup_keys]
        by_cases hz : p.offer_id ∈ (groupAssoc os).map Prod.fst
        · simpa [hz] using ih2
        · simp only [hz, if_false]
          simp [List.nodup_append, ih2, hz]
      · rw [pushToGroup_keys, hfm, dedupFirst, dedupFirstAux_append]
        by_cases hz : p.offer_id ∈ (groupAssoc os).map Prod.fst
        · have hin : p.offer_id ∈ os.filterMap keyOf := hmemiff.mp hz
          simp [hz, hin, ih3, dedupFirst, mem_dedupFirstAux]
        · have hout : p.offer_id ∉ os.filterMap keyOf := fun h => hz (hmemiff.mpr h)
          simp [hz, hout, ih3, dedupFirst, mem_dedupFirstAux]
      · rw [pushToGroup_lensum, ih4, hfm]
        simp
    · have hko : keyOf o = none := by simp [keyOf, hp]
      have hadd : addToGroups (groupAssoc os) o = groupAssoc os := by
        simp [addToGroups, hp]
      rw [hga, hadd]
      refine ⟨fun kg hkg => entryInv_extend_none os o hko kg (ih1 kg hkg), ih2, ?_, ?_⟩
      · rw [List.filterMap_append]
        simp [List.filterMap_cons, hko, ih3]
      · rw [List.filterMap_append]
        simp [List.filterMap_cons, hko, ih4]

/-- C7 (confirmed): `buildGroups` considers exactly the orders with a
single line item — the group keys are their offer ids in first-
encounter order and the member counts sum to the number of such
orders — each group's members are precisely the orders whose single
item has the group's offer id in encounter order, the representative
item comes from the first order of the group, the output is sorted
descending by member count, and within any one member-count level the
sorted output preserves the first-encountered group order. -/
theorem claimC7 (orders : List OzonPosting) :
    ((groupAssoc orders).map Prod.fst = dedupFirst (orders.filterMap keyOf))
    ∧ (∀ g ∈ buildGroups orders,
        g.orders = orders.filter (fun o => keyOf o = some g.product.offer_id)
        ∧ g.orders.head?.bind (fun o => o.products.head?) = some g.product)
    ∧ ((buildGroups orders).map (fun g => g.orders.length)).sum
        = (orders.filter (fun o => o.products.length = 1)).length
    ∧ List.Chain' (fun a b => b.orders.length ≤ a.orders.length) (buildGroups orders)
    ∧ ∀ n, (buildGroups orders).filter (fun g => g.orders.length = n)
        = ((groupAssoc orders).map Prod.snd).filter (fun g => g.orders.length = n) := by
  obtain ⟨h1, h2, h3, h4⟩ := groupAssoc_inv orders
  refine ⟨h3, ?_, ?_, ?_, ?_⟩
  · intro g hg
    rw [buildGroups, List.mem_insertionSort] at hg
    obtain ⟨kg, hkg, rfl⟩ := List.mem_map.mp hg
    obtain ⟨e1, e2, e3, _⟩ := h1 kg hkg
    rw [e1] at e2
    exact ⟨e2, e3⟩
  · have hperm : List.Perm (buildGroups orders) ((groupAssoc orders).map Prod.snd) :=
      List.perm_insertionSort _ _
    have hsum := (hperm.map (fun g => g.orders.length)).sum_eq
    rw [hsum, List.map_map]
    rw [show ((fun g : SmartGroup => g.orders.length) ∘ Prod.snd)
        = (fun kg : String × SmartGroup => kg.2.orders.length) from rfl]
    rw [h4, filterMap_keyOf_length]
  · exact List.Pairwise.chain'
      (sorted_key_insertionSort (fun g : SmartGroup => g.orders.length)
        ((groupAssoc orders).map Prod.snd))
  · intro n
    exact filter_key_insertionSort (fun g : SmartGroup => g.orders.length) n
      ((groupAssoc orders).map Prod.snd)

/-- C7 witness: on the concrete three-order list, the two-member group
of offer `OF1` has exactly the two matching orders with the first
order's item as representative, the member counts sum to the number of
single-item orders, and the tie level of size one is preserved. -/
theorem claimC7_wit :
    (gEx.orders = ordersEx.filter (fun o => keyOf o = some gEx.product.offer_id)
      ∧ gEx.orders.head?.bind (fun o => o.products.head?) = some gEx.product)
    ∧ ((buildGroups ordersEx).map (fun g => g.orders.length)).sum
        = (ordersEx.filter (fun o => o.products.length = 1)).length
    ∧ (buildGroups ordersEx).filter (fun g => g.orders.length = 1)
        = ((groupAssoc ordersEx).map Prod.snd).filter (fun g => g.orders.length = 1) :=
  ⟨(claimC7 ordersEx).2.1 gEx (by decide), (claimC7 ordersEx).2.2.1,
    (claimC7 ordersEx).2.2.2.2 1⟩
